import Mathlib

/-!
Verification of the recurrence engine (`KCal::Recurrence`) of the
kcalendarcore repository.  The `Recurrence` class orchestrates inclusion and
exclusion rules (`RecurrenceRule`), explicit inclusion/exclusion dates and
date-times, anchored at a start instant, with change notification and a
cached legacy classification.

Shallow embedding notes:
* `KDT` models `KDateTime`: an absolute instant (seconds since an epoch)
  together with a display spec (a fixed UTC offset in seconds) and a
  date-only flag.  Comparison and equality of `KDateTime` values compare the
  absolute instant; `toTimeSpec` preserves the instant and changes the spec;
  `setTimeSpec` preserves the wall-clock reading and changes the spec.
* `RecurrenceRule` is embedded as a record of its mutable fields (start
  instant, floating flag, duration, frequency, end) together with its query
  operations as abstract function fields, since the rule implementation is
  not part of the sources under verification; where a property of a rule
  operation is needed it is taken as an explicit hypothesis modelled from
  the specification of `RecurrenceRule`.
* Observer notification is modelled by a counter `notif` incremented once
  per `updated()` call; each `updated()` call notifies every registered
  observer exactly once, so the counter counts notifications delivered to
  each observer.
-/

/-- Model of a time spec (`KDateTime::Spec`): a fixed UTC offset in seconds. -/
abbrev Spec := Int

/-- Seconds in a day, the conversion factor between dates and instants. -/
def secondsPerDay : Int := 86400

/-- Model of `KDateTime`: absolute instant in seconds plus display spec and
date-only flag.  The wall-clock reading is `abs + spec`. -/
structure KDT where
  abs : Int
  spec : Spec
  dateOnly : Bool := false
deriving DecidableEq

/-- Wall-clock reading of an instant in its own spec, in seconds. -/
def kdtWall (t : KDT) : Int := t.abs + t.spec

/-- Model of `KDateTime::date()`: the calendar date (as a day number) of the
instant read in its own spec. -/
def kdtDate (t : KDT) : Int := (kdtWall t).fdiv secondsPerDay

/-- Model of `KDateTime::time()`: the time of day (seconds past midnight) of
the instant read in its own spec. -/
def kdtTime (t : KDT) : Int := (kdtWall t).emod secondsPerDay

/-- Model of `KDateTime::toTimeSpec`: convert to another spec preserving the
absolute instant. -/
def toTimeSpec (z : Spec) (t : KDT) : KDT := ⟨t.abs, z, t.dateOnly⟩

/-- Model of `KDateTime::setTimeSpec`: stamp another spec preserving the
wall-clock reading. -/
def setTimeSpec (z : Spec) (t : KDT) : KDT := ⟨t.abs + t.spec - z, z, t.dateOnly⟩

/-- Construct an instant from a date, a time of day and a spec, as the
`KDateTime(date, time, spec)` constructor does. -/
def mkKDT (d tm : Int) (z : Spec) : KDT := ⟨d * secondsPerDay + tm - z, z, false⟩

/-- Model of `KDateTime::setDate`: replace the date keeping the time of day
and the spec. -/
def kdtSetDate (t : KDT) (d : Int) : KDT :=
  ⟨d * secondsPerDay + kdtTime t - t.spec, t.spec, t.dateOnly⟩

/-- Model of `KDateTime::operator<`: compare absolute instants. -/
def kdtLt (a b : KDT) : Bool := a.abs < b.abs

/-- Model of `KDateTime::operator==`: same absolute instant. -/
def kdtEqB (a b : KDT) : Bool := a.abs == b.abs

/-! Sorted list operations.  `SortableList` (the type of the four
date/instant lists) is part of the repository but its implementation is not
among the sources; the operations below are modelled from the spec: date and
instant lists are kept sorted ascending and free of duplicates, bulk setters
re-sort and deduplicate, single-element adders insert in sorted position,
`containsSorted` is sorted membership, `findGT`/`findLT` return the least
element above / greatest element below a value, `removeSorted` removes a
value if present. -/

/-- Modelled from the spec: `SortableList::containsSorted` on an `Int` list
(sorted membership). -/
def containsSortedI (l : List Int) (x : Int) : Bool := l.contains x

/-- Modelled from the spec: `SortableList::containsSorted` on a `KDateTime`
list; elements compare equal when they denote the same instant. -/
def containsSortedK (l : List KDT) (x : KDT) : Bool := l.any (fun y => y.abs == x.abs)

/-- Modelled from the spec: `SortableList::insertSorted` on an `Int` list;
inserts in sorted position, no change if the value is already present. -/
def insertSortedI (x : Int) : List Int → List Int
  | [] => [x]
  | y :: ys => if x < y then x :: y :: ys else if x = y then y :: ys else y :: insertSortedI x ys

/-- Modelled from the spec: `SortableList::insertSorted` on a `KDateTime`
list, ordered and deduplicated by absolute instant. -/
def insertSortedK (x : KDT) : List KDT → List KDT
  | [] => [x]
  | y :: ys =>
    if x.abs < y.abs then x :: y :: ys
    else if x.abs = y.abs then y :: ys
    else y :: insertSortedK x ys

/-- Modelled from the spec: `SortableList::sortUnique` on an `Int` list;
sort ascending and remove duplicates. -/
def sortUniqueI (l : List Int) : List Int := l.foldr insertSortedI []

/-- Modelled from the spec: `SortableList::sortUnique` on a `KDateTime`
list; sort ascending by instant and remove duplicate instants. -/
def sortUniqueK (l : List KDT) : List KDT := l.foldr insertSortedK []

/-- Modelled from the spec: `SortableList::findGT` on a sorted `KDateTime`
list returns the first (least) element strictly greater than the value. -/
def findGT (l : List KDT) (x : KDT) : Option KDT := l.find? (fun y => x.abs < y.abs)

/-- Modelled from the spec: `SortableList::findLT` on a sorted `KDateTime`
list returns the last (greatest) element strictly less than the value. -/
def findLT (l : List KDT) (x : KDT) : Option KDT :=
  (l.filter (fun y => y.abs < x.abs)).getLast?

/-- Modelled from the spec: `SortableList::removeSorted` on an `Int` list;
remove the value if present (on a duplicate-free list, one occurrence). -/
def removeSortedI (ts : List Int) (x : Int) : List Int := ts.erase x

/-- Modelled from the spec: `SortableList::removeSorted` on a `KDateTime`
list; remove the element denoting the given instant if present. -/
def removeSortedK : List KDT → KDT → List KDT
  | [], _ => []
  | y :: ys, x => if y.abs = x.abs then ys else y :: removeSortedK ys x

/-- Embedding of one `RecurrenceRule`: its mutable fields as data and its
query operations as abstract behaviours (the rule implementation is not part
of the sources under verification).  `rid` models object identity, used by
pointer-based removal. -/
structure RecurrenceRule where
  startDt : KDT
  floats : Bool
  duration : Int
  frequency : Int
  endDt : Option KDT
  rid : Nat
  recursAtF : KDT → Bool
  recursOnF : Int → Spec → Bool
  recurTimesOnF : Int → Spec → List Int
  timesInIntervalF : KDT → KDT → List KDT
  getNextDateF : KDT → Option KDT
  getPreviousDateF : KDT → Option KDT
  durationToF : KDT → Int

/-- Sentinel value of the cached legacy classification meaning "not
computed" (`rMax`); `updated()` resets the cache to it. -/
def rMax : Nat := 11

/-- Embedding of the state of a `KCal::Recurrence` (`Recurrence::Private`):
rule lists, the four date/instant lists, the anchor, the cached legacy
classification, the floating (all-day) and read-only flags, and the count of
notifications delivered to each registered observer. -/
structure Recurrence where
  rRules : List RecurrenceRule
  exRules : List RecurrenceRule
  rDateTimes : List KDT
  rDates : List Int
  exDateTimes : List KDT
  exDates : List Int
  startDateTime : KDT
  cachedType : Nat
  floating : Bool
  readOnly : Bool
  notif : Nat

/-- A freshly constructed `Recurrence`: empty lists, cache at the sentinel,
not floating, not read-only (the `Private()` constructor). -/
def initRecurrence : Recurrence :=
  { rRules := [], exRules := [], rDateTimes := [], rDates := []
    exDateTimes := [], exDates := [], startDateTime := ⟨0, 0, false⟩
    cachedType := rMax, floating := false, readOnly := false, notif := 0 }

/-- `Recurrence::updated()`: invalidate the cached classification and notify
every registered observer once. -/
def Recurrence.updated (s : Recurrence) : Recurrence :=
  { s with cachedType := rMax, notif := s.notif + 1 }

/-- Scan of a date-time list collecting the times of day of entries whose
date in spec `z` equals `date`; mirrors the `foundDate`/`break` loop of
`Recurrence::recurTimesOn`, which stops at the first non-matching entry
after a match (the list is assumed sorted). -/
def scanTimes (z : Spec) (date : Int) : List KDT → Bool → List Int
  | [], _ => []
  | dt :: rest, found =>
    let c := toTimeSpec z dt
    if kdtDate c = date then kdtTime c :: scanTimes z date rest true
    else if found then [] else scanTimes z date rest false

/-- Concatenation of the per-rule time lists for one date, mirroring the
`times += rule->recurTimesOn(date, spec)` accumulation loop. -/
def rulesTimesOn (rules : List RecurrenceRule) (date : Int) (z : Spec) : List Int :=
  (rules.map (fun r => r.recurTimesOnF date z)).flatten

/-- Inclusion times collected by `Recurrence::recurTimesOn` before
exclusion: the anchor's time if the anchor falls on the date, the matching
`rDateTimes` entries, and every inclusion rule's times. -/
def Recurrence.incTimesBase (s : Recurrence) (date : Int) (z : Spec) : List Int :=
  (if kdtDate (toTimeSpec z s.startDateTime) = date then [kdtTime (toTimeSpec z s.startDateTime)] else [])
    ++ scanTimes z date s.rDateTimes false
    ++ rulesTimesOn s.rRules date z

/-- Exclusion times collected by `Recurrence::recurTimesOn`: the matching
`exDateTimes` entries, and (for non-floating recurrences) every exclusion
rule's times. -/
def Recurrence.exTimesBase (s : Recurrence) (date : Int) (z : Spec) : List Int :=
  scanTimes z date s.exDateTimes false
    ++ (if !s.floating then rulesTimesOn s.exRules date z else [])

/-- `Recurrence::recurTimesOn(date, timeSpec)`: the times of day at which
the recurrence occurs on the given date, exclusions subtracted. -/
def Recurrence.recurTimesOn (s : Recurrence) (date : Int) (z : Spec) : List Int :=
  if containsSortedI s.exDates date then []
  else if s.floating && s.exRules.any (fun r => r.recursOnF date z) then []
  else
    (sortUniqueI (s.exTimesBase date z)).foldl removeSortedI
      (sortUniqueI (s.incTimesBase date z))

/-- `Recurrence::recursOn(qd, timeSpec)`: whether the recurrence occurs on
the given date, with the short-cut paths of the source (date before start,
excluded date, floating exrule match, `rDates` hit, no-candidate, and the
full `recurTimesOn` confirmation when some time of the day is excluded). -/
def Recurrence.recursOn (s : Recurrence) (qd : Int) (z : Spec) : Bool :=
  if kdtLt (mkKDT qd 86399 z) s.startDateTime then false
  else if containsSortedI s.exDates qd then false
  else if s.floating && s.exRules.any (fun r => r.recursOnF qd z) then false
  else if containsSortedI s.rDates qd then true
  else
    let recurs := (kdtDate s.startDateTime == qd)
      || s.rDateTimes.any (fun rdt => kdtDate (toTimeSpec z rdt) == qd)
      || s.rRules.any (fun r => r.recursOnF qd z)
    if !recurs then false
    else
      let exon := s.exDateTimes.any (fun edt => kdtDate (toTimeSpec z edt) == qd)
        || (!s.floating && s.exRules.any (fun r => r.recursOnF qd z))
      if !exon then recurs
      else !(s.recurTimesOn qd z).isEmpty

/-- `Recurrence::recursAt(dt)`: whether the recurrence occurs at the given
instant; the instant is first converted to the start's time spec, exclusions
take precedence, then the anchor, the `rDateTimes` and the inclusion rules
are consulted. -/
def Recurrence.recursAt (s : Recurrence) (dt : KDT) : Bool :=
  let dtrecur := toTimeSpec s.startDateTime.spec dt
  if containsSortedK s.exDateTimes dtrecur || containsSortedI s.exDates (kdtDate dtrecur) then false
  else if s.exRules.any (fun r => r.recursAtF dtrecur) then false
  else if kdtEqB s.startDateTime dtrecur || containsSortedK s.rDateTimes dtrecur then true
  else s.rRules.any (fun r => r.recursAtF dtrecur)

/-- Removal pass of `Recurrence::timesInInterval` over the sorted `exDates`:
the two-pointer loop that, for each exclusion date in order, skips entries
dated earlier and removes the entries dated exactly on it. -/
def exDateScan : List Int → List KDT → List KDT
  | [], times => times
  | d :: ds, times =>
    let pre := times.takeWhile (fun t => kdtDate t < d)
    let rest := (times.dropWhile (fun t => kdtDate t < d)).dropWhile (fun t => kdtDate t = d)
    pre ++ exDateScan ds rest

/-- `Recurrence::timesInInterval(start, end)`: the union of all inclusion
rule expansions over the interval, all `rDateTimes`, and all `rDates`
promoted to instants at the anchor's time of day; sorted and deduplicated,
then entries on an `exDate`, entries matching an exclusion rule expansion
and entries matching an `exDateTime` are removed. -/
def Recurrence.timesInInterval (s : Recurrence) (istart iend : KDT) : List KDT :=
  let base := (s.rRules.map (fun r => r.timesInIntervalF istart iend)).flatten
    ++ s.rDateTimes
    ++ s.rDates.map (fun dd => kdtSetDate s.startDateTime dd)
  let times := exDateScan s.exDates (sortUniqueK base)
  let extimes := sortUniqueK
    ((s.exRules.map (fun r => r.timesInIntervalF istart iend)).flatten ++ s.exDateTimes)
  extimes.foldl removeSortedK times

/-- Leftmost minimum of a nonempty candidate list by absolute instant; the
source sorts the candidates and takes `dates.first()`. -/
def kdtMin (x : KDT) (l : List KDT) : KDT :=
  l.foldl (fun a b => if b.abs < a.abs then b else a) x

/-- Leftmost maximum of a nonempty candidate list by absolute instant; the
source sorts the candidates and takes `dates.last()`. -/
def kdtMax (x : KDT) (l : List KDT) : KDT :=
  l.foldl (fun a b => if a.abs < b.abs then b else a) x

/-- One round of candidate collection of `Recurrence::getNextDateTime`: the
start if still ahead, the least `rDateTime` strictly after the point, the
first `rDate` promoted strictly after the point, and each inclusion rule's
next date. -/
def Recurrence.nextCandidates (s : Recurrence) (cur : KDT) : List KDT :=
  (if kdtLt cur s.startDateTime then [s.startDateTime] else [])
    ++ (match findGT s.rDateTimes cur with | some x => [x] | none => [])
    ++ (match s.rDates.find? (fun rd => kdtLt cur (kdtSetDate s.startDateTime rd)) with
        | some rd => [kdtSetDate s.startDateTime rd] | none => [])
    ++ s.rRules.filterMap (fun r => r.getNextDateF cur)

/-- One round of candidate collection of `Recurrence::getPreviousDateTime`,
the mirror of `nextCandidates`. -/
def Recurrence.prevCandidates (s : Recurrence) (cur : KDT) : List KDT :=
  (if kdtLt s.startDateTime cur then [s.startDateTime] else [])
    ++ (match findLT s.rDateTimes cur with | some x => [x] | none => [])
    ++ (match s.rDates.reverse.find? (fun rd => kdtLt (kdtSetDate s.startDateTime rd) cur) with
        | some rd => [kdtSetDate s.startDateTime rd] | none => [])
    ++ s.rRules.filterMap (fun r => r.getPreviousDateF cur)

/-- The admissibility check of the candidate loop: the candidate's date is
not an `exDate`, the candidate is not an `exDateTime`, and no exclusion rule
recurs at it. -/
def Recurrence.allowedAt (s : Recurrence) (t : KDT) : Bool :=
  !containsSortedI s.exDates (kdtDate t) && !containsSortedK s.exDateTimes t
    && s.exRules.all (fun r => !r.recursAtF t)

/-- The candidate-then-exclude loop of `Recurrence::getNextDateTime`,
with an explicit iteration budget (1000 in the source). -/
def Recurrence.nextGo (s : Recurrence) : Nat → KDT → Option KDT
  | 0, _ => none
  | fuel + 1, cur =>
    match s.nextCandidates cur with
    | [] => none
    | c :: cs =>
      let nextDT := kdtMin c cs
      if s.allowedAt nextDT then some nextDT else s.nextGo fuel nextDT

/-- `Recurrence::getNextDateTime(preDateTime)`: the earliest admissible
occurrence strictly after the given instant, searched within 1000
candidate-rejection rounds; `none` when the search fails. -/
def Recurrence.getNextDateTime (s : Recurrence) (preDateTime : KDT) : Option KDT :=
  s.nextGo 1000 preDateTime

/-- The candidate-then-exclude loop of `Recurrence::getPreviousDateTime`. -/
def Recurrence.prevGo (s : Recurrence) : Nat → KDT → Option KDT
  | 0, _ => none
  | fuel + 1, cur =>
    match s.prevCandidates cur with
    | [] => none
    | c :: cs =>
      let prevDT := kdtMax c cs
      if s.allowedAt prevDT then some prevDT else s.prevGo fuel prevDT

/-- `Recurrence::getPreviousDateTime(afterDateTime)`: the latest admissible
occurrence strictly before the given instant, searched within 1000
candidate-rejection rounds; `none` when the search fails. -/
def Recurrence.getPreviousDateTime (s : Recurrence) (afterDateTime : KDT) : Option KDT :=
  s.prevGo 1000 afterDateTime

/-- Failure of the forward search: at each remaining round either no
candidate strictly after the current point exists, or the round's minimal
candidate is excluded and the search continues from it; a zero budget is
exhausted. -/
def Recurrence.nextSearchFails (s : Recurrence) : Nat → KDT → Prop
  | 0, _ => True
  | fuel + 1, cur =>
    match s.nextCandidates cur with
    | [] => True
    | c :: cs => s.allowedAt (kdtMin c cs) = false ∧ s.nextSearchFails fuel (kdtMin c cs)

/-- Failure of the backward search, the mirror of `nextSearchFails`. -/
def Recurrence.prevSearchFails (s : Recurrence) : Nat → KDT → Prop
  | 0, _ => True
  | fuel + 1, cur =>
    match s.prevCandidates cur with
    | [] => True
    | c :: cs => s.allowedAt (kdtMax c cs) = false ∧ s.prevSearchFails fuel (kdtMax c cs)

/-! Mutators.  Every mutator of `Recurrence` is a no-op when the read-only
flag is set.  Mutations of contained rules (`setFloats`, `setStartDt`,
`shiftTimes` on a rule, `setEndDt`, `setDuration`, `setFrequency`) are
modelled from the spec as updates of the corresponding rule fields, the rule
implementation being absent from the sources. -/

/-- `Recurrence::setFloats(b)`: no-op when read-only or unchanged; otherwise
set the flag, cascade it to every inclusion and exclusion rule, and fire one
notification. -/
def Recurrence.setFloats (s : Recurrence) (b : Bool) : Recurrence :=
  if s.readOnly || b == s.floating then s
  else
    ({ s with floating := b
              rRules := s.rRules.map (fun (r : RecurrenceRule) => { r with floats := b })
              exRules := s.exRules.map (fun (r : RecurrenceRule) => { r with floats := b }) }).updated

/-- `Recurrence::setStartDateTime(start)`: no-op when read-only; store the
anchor; for a date-only anchor only set the floating flag, otherwise clear
the floating flag and cascade the anchor to every rule's start; fire a
notification (plus the one `setFloats` fires when the flag changes). -/
def Recurrence.setStartDateTime (s : Recurrence) (start : KDT) : Recurrence :=
  if s.readOnly then s
  else
    let s1 := { s with startDateTime := start }
    if start.dateOnly then (s1.setFloats true).updated
    else
      let s2 := s1.setFloats false
      ({ s2 with rRules := s2.rRules.map (fun (r : RecurrenceRule) => { r with startDt := start })
                 exRules := s2.exRules.map (fun (r : RecurrenceRule) => { r with startDt := start }) }).updated

/-- `Recurrence::clear()`: empty every rule and date list, reset the cache,
fire one notification; no-op when read-only. -/
def Recurrence.clear (s : Recurrence) : Recurrence :=
  if s.readOnly then s
  else
    ({ s with rRules := [], exRules := [], rDates := [], rDateTimes := []
              exDates := [], exDateTimes := [], cachedType := rMax }).updated

/-- `Recurrence::unsetRecurs()`: drop the inclusion rules; no-op when
read-only. -/
def Recurrence.unsetRecurs (s : Recurrence) : Recurrence :=
  if s.readOnly then s else ({ s with rRules := [] }).updated

/-- `Recurrence::shiftTimes(oldSpec, newSpec)`: convert every stored instant
to the old spec then stamp the new spec on it (preserving the wall-clock it
showed in the old spec), for the anchor, the date-time lists and the rules;
no notification is fired; no-op when read-only. -/
def Recurrence.shiftTimes (s : Recurrence) (oldZ newZ : Spec) : Recurrence :=
  if s.readOnly then s
  else
    { s with
      startDateTime := setTimeSpec newZ (toTimeSpec oldZ s.startDateTime)
      rDateTimes := s.rDateTimes.map (fun x => setTimeSpec newZ (toTimeSpec oldZ x))
      exDateTimes := s.exDateTimes.map (fun x => setTimeSpec newZ (toTimeSpec oldZ x))
      rRules := s.rRules.map (fun (r : RecurrenceRule) => { r with startDt := setTimeSpec newZ (toTimeSpec oldZ r.startDt) })
      exRules := s.exRules.map (fun (r : RecurrenceRule) => { r with startDt := setTimeSpec newZ (toTimeSpec oldZ r.startDt) }) }

/-- `Recurrence::addRRule(rule)`: set the rule's floating flag from the
recurrence, append it and fire one notification; no-op when read-only. -/
def Recurrence.addRRule (s : Recurrence) (r : RecurrenceRule) : Recurrence :=
  if s.readOnly then s
  else ({ s with rRules := s.rRules ++ [{ r with floats := s.floating }] }).updated

/-- `Recurrence::removeRRule(rule)`: remove the rule (by identity) and fire
one notification; no-op when read-only. -/
def Recurrence.removeRRule (s : Recurrence) (rid : Nat) : Recurrence :=
  if s.readOnly then s
  else ({ s with rRules := s.rRules.filter (fun r => r.rid != rid) }).updated

/-- `Recurrence::addExRule(exrule)`: set the rule's floating flag from the
recurrence, append it and fire one notification; no-op when read-only. -/
def Recurrence.addExRule (s : Recurrence) (r : RecurrenceRule) : Recurrence :=
  if s.readOnly then s
  else ({ s with exRules := s.exRules ++ [{ r with floats := s.floating }] }).updated

/-- `Recurrence::removeExRule(exrule)`: remove the rule (by identity) and
fire one notification; no-op when read-only. -/
def Recurrence.removeExRule (s : Recurrence) (rid : Nat) : Recurrence :=
  if s.readOnly then s
  else ({ s with exRules := s.exRules.filter (fun r => r.rid != rid) }).updated

/-- `Recurrence::setRDateTimes(rdates)`: replace the list, sort and
deduplicate it, fire one notification; no-op when read-only. -/
def Recurrence.setRDateTimes (s : Recurrence) (l : List KDT) : Recurrence :=
  if s.readOnly then s else ({ s with rDateTimes := sortUniqueK l }).updated

/-- `Recurrence::addRDateTime(rdate)`: insert in sorted position and fire
one notification; no-op when read-only. -/
def Recurrence.addRDateTime (s : Recurrence) (t : KDT) : Recurrence :=
  if s.readOnly then s else ({ s with rDateTimes := insertSortedK t s.rDateTimes }).updated

/-- `Recurrence::setRDates(rdates)`: replace the list, sort and deduplicate
it, fire one notification; no-op when read-only. -/
def Recurrence.setRDates (s : Recurrence) (l : List Int) : Recurrence :=
  if s.readOnly then s else ({ s with rDates := sortUniqueI l }).updated

/-- `Recurrence::addRDate(rdate)`: insert in sorted position and fire one
notification; no-op when read-only. -/
def Recurrence.addRDate (s : Recurrence) (dd : Int) : Recurrence :=
  if s.readOnly then s else ({ s with rDates := insertSortedI dd s.rDates }).updated

/-- `Recurrence::setExDateTimes(exdates)`: replace the list, sort and
deduplicate it; the source fires no notification here and leaves the cache
untouched; no-op when read-only. -/
def Recurrence.setExDateTimes (s : Recurrence) (l : List KDT) : Recurrence :=
  if s.readOnly then s else { s with exDateTimes := sortUniqueK l }

/-- `Recurrence::addExDateTime(exdate)`: insert in sorted position and fire
one notification; no-op when read-only. -/
def Recurrence.addExDateTime (s : Recurrence) (t : KDT) : Recurrence :=
  if s.readOnly then s else ({ s with exDateTimes := insertSortedK t s.exDateTimes }).updated

/-- `Recurrence::setExDates(exdates)`: replace the list, sort and
deduplicate it, fire one notification; no-op when read-only. -/
def Recurrence.setExDates (s : Recurrence) (l : List Int) : Recurrence :=
  if s.readOnly then s else ({ s with exDates := sortUniqueI l }).updated

/-- `Recurrence::addExDate(exdate)`: insert in sorted position and fire one
notification; no-op when read-only. -/
def Recurrence.addExDate (s : Recurrence) (dd : Int) : Recurrence :=
  if s.readOnly then s else ({ s with exDates := insertSortedI dd s.exDates }).updated

/-- Modelled from the spec: a freshly constructed `RecurrenceRule` whose
start is then set from the recurrence (`defaultRRule`); its behaviours are
those of an empty rule. -/
def mkDefaultRule (start : KDT) : RecurrenceRule :=
  { startDt := start, floats := false, duration := -1, frequency := 1
    endDt := none, rid := 0
    recursAtF := fun _ => false, recursOnF := fun _ _ => false
    recurTimesOnF := fun _ _ => [], timesInIntervalF := fun _ _ => []
    getNextDateF := fun _ => none, getPreviousDateF := fun _ => none
    durationToF := fun _ => 0 }

/-- `Recurrence::defaultRRule(create = true)`: when no inclusion rule
exists, create one anchored at the start and add it (none when read-only);
afterwards the first inclusion rule is the default rule. -/
def Recurrence.ensureDefaultRRule (s : Recurrence) : Option Recurrence :=
  match s.rRules with
  | [] => if s.readOnly then none else some (s.addRRule (mkDefaultRule s.startDateTime))
  | _ :: _ => some s

/-- Apply an update to the first inclusion rule (the default rule). -/
def updateFirstRule (s : Recurrence) (f : RecurrenceRule → RecurrenceRule) : Recurrence :=
  { s with rRules := match s.rRules with | [] => [] | r :: rs => f r :: rs }

/-- `Recurrence::setEndDateTime(dateTime)`: set the default rule's end
(creating the rule if needed) and fire a notification; no-op when
read-only. -/
def Recurrence.setEndDateTime (s : Recurrence) (dt : KDT) : Recurrence :=
  if s.readOnly then s
  else
    match s.ensureDefaultRRule with
    | none => s
    | some s1 => (updateFirstRule s1 (fun r => { r with endDt := some dt })).updated

/-- `Recurrence::setDuration(duration)`: set the default rule's duration
(creating the rule if needed) and fire a notification; no-op when
read-only. -/
def Recurrence.setDuration (s : Recurrence) (n : Int) : Recurrence :=
  if s.readOnly then s
  else
    match s.ensureDefaultRRule with
    | none => s
    | some s1 => (updateFirstRule s1 (fun r => { r with duration := n })).updated

/-- `Recurrence::setFrequency(freq)`: set the default rule's frequency
(creating the rule if needed) and fire a notification; no-op when read-only
or when the frequency is not positive. -/
def Recurrence.setFrequency (s : Recurrence) (freq : Int) : Recurrence :=
  if s.readOnly || freq ≤ 0 then s
  else
    match s.ensureDefaultRRule with
    | none => s
    | some s1 => (updateFirstRule s1 (fun r => { r with frequency := freq })).updated

/-- `Recurrence::setRecurReadOnly(readOnly)`: set the read-only flag. -/
def Recurrence.setRecurReadOnly (s : Recurrence) (b : Bool) : Recurrence :=
  { s with readOnly := b }

/-- `Recurrence::duration()`: the first inclusion rule's duration, `0` when
there is none. -/
def Recurrence.duration (s : Recurrence) : Int :=
  match s.rRules.head? with
  | some r => r.duration
  | none => 0

/-- `Recurrence::durationTo(datetime)`: the first inclusion rule's count of
occurrences up to the instant, `0` when there is no rule. -/
def Recurrence.durationTo (s : Recurrence) (dt : KDT) : Int :=
  match s.rRules.head? with
  | some r => r.durationToF dt
  | none => 0

/-- `Recurrence::frequency()`: the first inclusion rule's frequency, `0`
when there is none. -/
def Recurrence.frequency (s : Recurrence) : Int :=
  match s.rRules.head? with
  | some r => r.frequency
  | none => 0

/-- The public operations of `Recurrence`, as a syntax of state
transitions (used to quantify over every reachable state). -/
inductive Op where
  | setRDateTimes (l : List KDT)
  | addRDateTime (t : KDT)
  | setRDates (l : List Int)
  | addRDate (dd : Int)
  | setExDateTimes (l : List KDT)
  | addExDateTime (t : KDT)
  | setExDates (l : List Int)
  | addExDate (dd : Int)
  | clearAll
  | unsetRecurs
  | setStartDateTime (t : KDT)
  | setFloats (b : Bool)
  | shiftTimes (z1 z2 : Spec)
  | addRRule (r : RecurrenceRule)
  | removeRRule (rid : Nat)
  | addExRule (r : RecurrenceRule)
  | removeExRule (rid : Nat)
  | setEndDateTime (t : KDT)
  | setDuration (n : Int)
  | setFrequency (n : Int)
  | setRecurReadOnly (b : Bool)

/-- Interpretation of one public operation on a recurrence state. -/
def applyOp (op : Op) (s : Recurrence) : Recurrence :=
  match op with
  | .setRDateTimes l => s.setRDateTimes l
  | .addRDateTime t => s.addRDateTime t
  | .setRDates l => s.setRDates l
  | .addRDate dd => s.addRDate dd
  | .setExDateTimes l => s.setExDateTimes l
  | .addExDateTime t => s.addExDateTime t
  | .setExDates l => s.setExDates l
  | .addExDate dd => s.addExDate dd
  | .clearAll => s.clear
  | .unsetRecurs => s.unsetRecurs
  | .setStartDateTime t => s.setStartDateTime t
  | .setFloats b => s.setFloats b
  | .shiftTimes z1 z2 => s.shiftTimes z1 z2
  | .addRRule r => s.addRRule r
  | .removeRRule rid => s.removeRRule rid
  | .addExRule r => s.addExRule r
  | .removeExRule rid => s.removeExRule rid
  | .setEndDateTime t => s.setEndDateTime t
  | .setDuration n => s.setDuration n
  | .setFrequency n => s.setFrequency n
  | .setRecurReadOnly b => s.setRecurReadOnly b

/-- The state reached from a fresh recurrence by a sequence of public
operations. -/
def runOps (ops : List Op) : Recurrence :=
  ops.foldl (fun s op => applyOp op s) initRecurrence

/-- Sorted strictly ascending (hence duplicate-free) `Int` list. -/
def sortedUniqueI (l : List Int) : Prop := l.Pairwise (· < ·)

/-- Sorted strictly ascending by instant (hence duplicate-free) `KDateTime`
list. -/
def sortedUniqueK (l : List KDT) : Prop := l.Pairwise (fun a b => a.abs < b.abs)

/-- The list invariant of a recurrence: the four date/instant lists are
sorted ascending and duplicate-free. -/
def Recurrence.listsSorted (s : Recurrence) : Prop :=
  sortedUniqueI s.rDates ∧ sortedUniqueI s.exDates
    ∧ sortedUniqueK s.rDateTimes ∧ sortedUniqueK s.exDateTimes

/-! Helper lemmas and concrete fixtures. -/

/-- Pointwise equal functions map lists equally. -/
theorem listMapExt {α β : Type} (f g : α → β) (l : List α) (h : ∀ a, f a = g a) :
    l.map f = l.map g := by rw [funext h]

/-- A rule with empty behaviour, used as a concrete fixture. -/
def inertRule : RecurrenceRule := mkDefaultRule ⟨0, 0, false⟩

/-- C1: `Recurrence::recursAt(t)` returns false whenever the converted
instant's date is in `exDates`, the instant is in `exDateTimes`, or some
exclusion rule recurs at it; otherwise it returns true iff the instant
equals the anchor, is in `rDateTimes`, or some inclusion rule recurs at it,
the instant being first converted to the recurrence's start time spec. -/
theorem recursAt_exclusion_precedence (s : Recurrence) (t : KDT) :
    s.recursAt t =
      (!(containsSortedI s.exDates (kdtDate (toTimeSpec s.startDateTime.spec t))
          || containsSortedK s.exDateTimes (toTimeSpec s.startDateTime.spec t)
          || s.exRules.any (fun r => r.recursAtF (toTimeSpec s.startDateTime.spec t)))
        && (kdtEqB s.startDateTime (toTimeSpec s.startDateTime.spec t)
          || containsSortedK s.rDateTimes (toTimeSpec s.startDateTime.spec t)
          || s.rRules.any (fun r => r.recursAtF (toTimeSpec s.startDateTime.spec t)))) := by
  simp only [Recurrence.recursAt]
  cases h1 : containsSortedK s.exDateTimes (toTimeSpec s.startDateTime.spec t) <;>
    cases h2 : containsSortedI s.exDates (kdtDate (toTimeSpec s.startDateTime.spec t)) <;>
    cases h3 : s.exRules.any (fun r => r.recursAtF (toTimeSpec s.startDateTime.spec t)) <;>
    cases h4 : kdtEqB s.startDateTime (toTimeSpec s.startDateTime.spec t) <;>
    cases h5 : containsSortedK s.rDateTimes (toTimeSpec s.startDateTime.spec t) <;>
    simp [h1, h2, h3, h4, h5]

/-- C10: `duration`, `durationTo` and `frequency` depend only on the first
inclusion rule, and are `0` when no inclusion rule exists. -/
theorem aggregates_first_rule_only (s s' : Recurrence) (dt : KDT)
    (h : s.rRules.head? = s'.rRules.head?) :
    s.duration = s'.duration ∧ s.durationTo dt = s'.durationTo dt
      ∧ s.frequency = s'.frequency
      ∧ (s.rRules = [] → s.duration = 0 ∧ s.durationTo dt = 0 ∧ s.frequency = 0) := by
  refine ⟨?_, ?_, ?_, ?_⟩
  · simp [Recurrence.duration, h]
  · simp [Recurrence.durationTo, h]
  · simp [Recurrence.frequency, h]
  · intro he
    simp [Recurrence.duration, Recurrence.durationTo, Recurrence.frequency, he]

/-- Concrete recurrence with one rule, a companion differing everywhere
except the first rule. -/
def exTenA : Recurrence := { initRecurrence with rRules := [inertRule] }

/-- Companion of `exTenA`: same first rule, different other data. -/
def exTenB : Recurrence :=
  { initRecurrence with rRules := [inertRule], rDates := [3], exRules := [inertRule] }

/-- Witness for C10. -/
theorem aggregates_first_rule_only_witness :
    exTenA.duration = exTenB.duration ∧ exTenA.durationTo ⟨7, 0, false⟩ = exTenB.durationTo ⟨7, 0, false⟩
      ∧ exTenA.frequency = exTenB.frequency
      ∧ (exTenA.rRules = [] → exTenA.duration = 0 ∧ exTenA.durationTo ⟨7, 0, false⟩ = 0 ∧ exTenA.frequency = 0) :=
  aggregates_first_rule_only exTenA exTenB ⟨7, 0, false⟩ rfl

/-- C6: on a read-only recurrence every mutator is a no-op: the state,
including the notification count, is returned unchanged. -/
theorem readOnly_mutators_noop (s : Recurrence) (h : s.readOnly = true)
    (t u : KDT) (lk : List KDT) (li : List Int) (dd : Int) (b : Bool)
    (r : RecurrenceRule) (rid : Nat) (n : Int) :
    s.clear = s ∧ s.setStartDateTime t = s ∧ s.setFloats b = s
      ∧ s.setEndDateTime u = s ∧ s.setDuration n = s ∧ s.setFrequency n = s
      ∧ s.addRRule r = s ∧ s.addExRule r = s ∧ s.removeRRule rid = s ∧ s.removeExRule rid = s
      ∧ s.setRDateTimes lk = s ∧ s.addRDateTime t = s
      ∧ s.setRDates li = s ∧ s.addRDate dd = s
      ∧ s.setExDateTimes lk = s ∧ s.addExDateTime t = s
      ∧ s.setExDates li = s ∧ s.addExDate dd = s := by
  refine ⟨?_, ?_, ?_, ?_, ?_, ?_, ?_, ?_, ?_, ?_, ?_, ?_, ?_, ?_, ?_, ?_, ?_, ?_⟩ <;>
    simp [Recurrence.clear, Recurrence.setStartDateTime, Recurrence.setFloats,
      Recurrence.setEndDateTime, Recurrence.setDuration, Recurrence.setFrequency,
      Recurrence.addRRule, Recurrence.addExRule, Recurrence.removeRRule,
      Recurrence.removeExRule, Recurrence.setRDateTimes, Recurrence.addRDateTime,
      Recurrence.setRDates, Recurrence.addRDate, Recurrence.setExDateTimes,
      Recurrence.addExDateTime, Recurrence.setExDates, Recurrence.addExDate, h]

/-- A read-only recurrence fixture. -/
def exReadOnly : Recurrence := { initRecurrence with readOnly := true }

/-- Witness for C6. -/
theorem readOnly_mutators_noop_witness :
    exReadOnly.clear = exReadOnly ∧ exReadOnly.setStartDateTime ⟨1, 0, false⟩ = exReadOnly
      ∧ exReadOnly.setFloats true = exReadOnly
      ∧ exReadOnly.setEndDateTime ⟨2, 0, false⟩ = exReadOnly
      ∧ exReadOnly.setDuration 4 = exReadOnly ∧ exReadOnly.setFrequency 4 = exReadOnly
      ∧ exReadOnly.addRRule inertRule = exReadOnly ∧ exReadOnly.addExRule inertRule = exReadOnly
      ∧ exReadOnly.removeRRule 0 = exReadOnly ∧ exReadOnly.removeExRule 0 = exReadOnly
      ∧ exReadOnly.setRDateTimes [⟨3, 0, false⟩] = exReadOnly
      ∧ exReadOnly.addRDateTime ⟨1, 0, false⟩ = exReadOnly
      ∧ exReadOnly.setRDates [5] = exReadOnly ∧ exReadOnly.addRDate 6 = exReadOnly
      ∧ exReadOnly.setExDateTimes [⟨3, 0, false⟩] = exReadOnly
      ∧ exReadOnly.addExDateTime ⟨1, 0, false⟩ = exReadOnly
      ∧ exReadOnly.setExDates [5] = exReadOnly ∧ exReadOnly.addExDate 6 = exReadOnly :=
  readOnly_mutators_noop exReadOnly rfl ⟨1, 0, false⟩ ⟨2, 0, false⟩ [⟨3, 0, false⟩] [5] 6 true
    inertRule 0 4

/-- C5 counterexample: `setExDateTimes` on a writable recurrence delivers no
notification and leaves the cached classification untouched, contradicting
the claim that every mutating operation invalidates the cache and delivers
exactly one notification. -/
def exFive : Recurrence := { initRecurrence with cachedType := 3 }

/-- C5 counterexample theorem: after `setExDateTimes` the notification count
is still zero and the cache still holds the stale value `3`, not the
invalidation sentinel. -/
theorem setExDateTimes_fires_no_notification :
    (exFive.setExDateTimes [⟨5, 0, false⟩]).notif = 0
      ∧ (exFive.setExDateTimes [⟨5, 0, false⟩]).cachedType = 3
      ∧ (exFive.setExDateTimes [⟨5, 0, false⟩]).cachedType ≠ rMax := by
  refine ⟨rfl, rfl, by decide⟩

/-- C5 (amended): on a writable recurrence, `setRDates`, `addRDate`,
`setRDateTimes`, `clear`, `addRRule` and `removeRRule` invalidate the cached
classification and deliver exactly one notification; `setFloats` does so
exactly when the flag changes; `setStartDateTime` delivers one notification,
plus a second when the all-day flag changes, and invalidates the cache;
`setExDateTimes` only stores the sorted, deduplicated list and neither
invalidates the cache nor notifies. -/
theorem mutators_notify_once (s : Recurrence) (h : s.readOnly = false)
    (t : KDT) (lk : List KDT) (li : List Int) (dd : Int) (b : Bool)
    (r : RecurrenceRule) (rid : Nat) :
    ((s.setRDates li).notif = s.notif + 1 ∧ (s.setRDates li).cachedType = rMax)
      ∧ ((s.addRDate dd).notif = s.notif + 1 ∧ (s.addRDate dd).cachedType = rMax)
      ∧ ((s.setRDateTimes lk).notif = s.notif + 1 ∧ (s.setRDateTimes lk).cachedType = rMax)
      ∧ (s.clear.notif = s.notif + 1 ∧ s.clear.cachedType = rMax)
      ∧ ((s.addRRule r).notif = s.notif + 1 ∧ (s.addRRule r).cachedType = rMax)
      ∧ ((s.removeRRule rid).notif = s.notif + 1 ∧ (s.removeRRule rid).cachedType = rMax)
      ∧ ((s.setFloats b).notif = (if b = s.floating then s.notif else s.notif + 1)
          ∧ (s.setFloats b).cachedType = (if b = s.floating then s.cachedType else rMax))
      ∧ ((s.setStartDateTime t).notif
            = (if t.dateOnly = s.floating then s.notif + 1 else s.notif + 2)
          ∧ (s.setStartDateTime t).cachedType = rMax)
      ∧ ((s.setExDateTimes lk).notif = s.notif
          ∧ (s.setExDateTimes lk).cachedType = s.cachedType
          ∧ (s.setExDateTimes lk).exDateTimes = sortUniqueK lk) := by
  refine ⟨?_, ?_, ?_, ?_, ?_, ?_, ?_, ?_, ?_⟩
  · simp [Recurrence.setRDates, Recurrence.updated, h]
  · simp [Recurrence.addRDate, Recurrence.updated, h]
  · simp [Recurrence.setRDateTimes, Recurrence.updated, h]
  · simp [Recurrence.clear, Recurrence.updated, h]
  · simp [Recurrence.addRRule, Recurrence.updated, h]
  · simp [Recurrence.removeRRule, Recurrence.updated, h]
  · by_cases hb : b = s.floating <;>
      simp [Recurrence.setFloats, Recurrence.updated, h, hb]
  · cases hd : t.dateOnly <;> by_cases hf : s.floating <;>
      simp [Recurrence.setStartDateTime, Recurrence.setFloats, Recurrence.updated, h, hd, hf]
  · simp [Recurrence.setExDateTimes, h]

/-- Witness for C5 (amended). -/
theorem mutators_notify_once_witness :
    ((initRecurrence.setRDates [5]).notif = initRecurrence.notif + 1
        ∧ (initRecurrence.setRDates [5]).cachedType = rMax)
      ∧ ((initRecurrence.addRDate 6).notif = initRecurrence.notif + 1
        ∧ (initRecurrence.addRDate 6).cachedType = rMax)
      ∧ ((initRecurrence.setRDateTimes [⟨3, 0, false⟩]).notif = initRecurrence.notif + 1
        ∧ (initRecurrence.setRDateTimes [⟨3, 0, false⟩]).cachedType = rMax)
      ∧ (initRecurrence.clear.notif = initRecurrence.notif + 1
        ∧ initRecurrence.clear.cachedType = rMax)
      ∧ ((initRecurrence.addRRule inertRule).notif = initRecurrence.notif + 1
        ∧ (initRecurrence.addRRule inertRule).cachedType = rMax)
      ∧ ((initRecurrence.removeRRule 0).notif = initRecurrence.notif + 1
        ∧ (initRecurrence.removeRRule 0).cachedType = rMax)
      ∧ ((initRecurrence.setFloats true).notif
            = (if true = initRecurrence.floating then initRecurrence.notif else initRecurrence.notif + 1)
        ∧ (initRecurrence.setFloats true).cachedType
            = (if true = initRecurrence.floating then initRecurrence.cachedType else rMax))
      ∧ ((initRecurrence.setStartDateTime ⟨1, 0, false⟩).notif
            = (if (⟨1, 0, false⟩ : KDT).dateOnly = initRecurrence.floating
               then initRecurrence.notif + 1 else initRecurrence.notif + 2)
        ∧ (initRecurrence.setStartDateTime ⟨1, 0, false⟩).cachedType = rMax)
      ∧ ((initRecurrence.setExDateTimes [⟨3, 0, false⟩]).notif = initRecurrence.notif
        ∧ (initRecurrence.setExDateTimes [⟨3, 0, false⟩]).cachedType = initRecurrence.cachedType
        ∧ (initRecurrence.setExDateTimes [⟨3, 0, false⟩]).exDateTimes = sortUniqueK [⟨3, 0, false⟩]) :=
  mutators_notify_once initRecurrence rfl ⟨1, 0, false⟩ [⟨3, 0, false⟩] [5] 6 true inertRule 0

/-- C7 counterexample fixture: one inclusion rule whose start differs from
the new, date-only anchor. -/
def exSeven : Recurrence := { initRecurrence with rRules := [inertRule] }

/-- C7 counterexample theorem: after `setStartDateTime` with a date-only
anchor, the contained rule's start is unchanged and differs from the new
anchor, contradicting the claim that the anchor cascades to every rule for
every instant including date-only ones. -/
theorem setStartDateTime_dateOnly_no_cascade :
    ((exSeven.setStartDateTime ⟨100, 0, true⟩).rRules.map RecurrenceRule.startDt
        = [⟨0, 0, false⟩])
      ∧ ((⟨0, 0, false⟩ : KDT) ≠ ⟨100, 0, true⟩) := by
  refine ⟨rfl, by decide⟩

/-- C7 (amended): on a writable recurrence, `setStartDateTime(t)` stores `t`
as the anchor, updates the all-day flag from `t`, and fires a notification;
the anchor cascades to the start of every inclusion and exclusion rule only
when `t` is not date-only, and for a date-only `t` every rule's start is
left unchanged. -/
theorem setStartDateTime_cascade (s : Recurrence) (h : s.readOnly = false) (t : KDT) :
    (s.setStartDateTime t).startDateTime = t
      ∧ (s.setStartDateTime t).floating = t.dateOnly
      ∧ s.notif < (s.setStartDateTime t).notif
      ∧ (t.dateOnly = false →
          (∀ r ∈ (s.setStartDateTime t).rRules, r.startDt = t)
            ∧ (∀ r ∈ (s.setStartDateTime t).exRules, r.startDt = t))
      ∧ (t.dateOnly = true →
          (s.setStartDateTime t).rRules.map RecurrenceRule.startDt = s.rRules.map RecurrenceRule.startDt
            ∧ (s.setStartDateTime t).exRules.map RecurrenceRule.startDt = s.exRules.map RecurrenceRule.startDt) := by
  refine ⟨?_, ?_, ?_, ?_, ?_⟩
  · cases hd : t.dateOnly <;> by_cases hf : s.floating <;>
      simp [Recurrence.setStartDateTime, Recurrence.setFloats, Recurrence.updated, h, hd, hf]
  · cases hd : t.dateOnly <;> by_cases hf : s.floating <;>
      simp [Recurrence.setStartDateTime, Recurrence.setFloats, Recurrence.updated, h, hd, hf]
  · cases hd : t.dateOnly <;> by_cases hf : s.floating <;>
      simp [Recurrence.setStartDateTime, Recurrence.setFloats, Recurrence.updated, h, hd, hf] <;>
      omega
  · intro hd
    constructor <;>
    · intro r hr
      by_cases hf : s.floating <;>
        simp [Recurrence.setStartDateTime, Recurrence.setFloats, Recurrence.updated, h, hd, hf,
          List.mem_map] at hr <;>
        · obtain ⟨a, -, rfl⟩ := hr
          rfl
  · intro hd
    by_cases hf : s.floating <;>
      simp [Recurrence.setStartDateTime, Recurrence.setFloats, Recurrence.updated, h, hd, hf,
        List.map_map, Function.comp]

/-- Witness for C7 (amended). -/
theorem setStartDateTime_cascade_witness :
    (exSeven.setStartDateTime ⟨9, 0, false⟩).startDateTime = ⟨9, 0, false⟩
      ∧ (exSeven.setStartDateTime ⟨9, 0, false⟩).floating = (⟨9, 0, false⟩ : KDT).dateOnly
      ∧ exSeven.notif < (exSeven.setStartDateTime ⟨9, 0, false⟩).notif
      ∧ ((⟨9, 0, false⟩ : KDT).dateOnly = false →
          (∀ r ∈ (exSeven.setStartDateTime ⟨9, 0, false⟩).rRules, r.startDt = ⟨9, 0, false⟩)
            ∧ (∀ r ∈ (exSeven.setStartDateTime ⟨9, 0, false⟩).exRules, r.startDt = ⟨9, 0, false⟩))
      ∧ ((⟨9, 0, false⟩ : KDT).dateOnly = true →
          (exSeven.setStartDateTime ⟨9, 0, false⟩).rRules.map RecurrenceRule.startDt
              = exSeven.rRules.map RecurrenceRule.startDt
            ∧ (exSeven.setStartDateTime ⟨9, 0, false⟩).exRules.map RecurrenceRule.startDt
              = exSeven.exRules.map RecurrenceRule.startDt) :=
  setStartDateTime_cascade exSeven rfl ⟨9, 0, false⟩

/-- C8 counterexample theorem: shifting a recurrence whose stored instants
are not in the old zone changes their wall-clock reading: the anchor read 0
seconds past the epoch midnight before `shiftTimes 3600 0` and reads 3600
after, contradicting the claim that every stored instant keeps its
wall-clock component tuple. -/
theorem shiftTimes_changes_wall_clock :
    kdtWall ((initRecurrence.shiftTimes 3600 0).startDateTime) = 3600
      ∧ kdtWall initRecurrence.startDateTime = 0
      ∧ (3600 : Int) ≠ 0 := by
  refine ⟨rfl, rfl, by decide⟩

/-- C8 (amended): on a writable recurrence, after `shiftTimes(Z1, Z2)` every
stored instant (anchor, `rDateTimes`, `exDateTimes`) carries zone `Z2` and
shows the wall-clock it previously showed when converted to `Z1`; in
particular an instant whose zone already was `Z1` keeps its wall-clock
reading. -/
theorem shiftTimes_wall_clock (s : Recurrence) (h : s.readOnly = false) (z1 z2 : Spec) :
    (s.shiftTimes z1 z2).startDateTime.spec = z2
      ∧ kdtWall (s.shiftTimes z1 z2).startDateTime = kdtWall (toTimeSpec z1 s.startDateTime)
      ∧ (∀ x ∈ (s.shiftTimes z1 z2).rDateTimes, x.spec = z2)
      ∧ (s.shiftTimes z1 z2).rDateTimes.map kdtWall
          = s.rDateTimes.map (fun x => kdtWall (toTimeSpec z1 x))
      ∧ (∀ x ∈ (s.shiftTimes z1 z2).exDateTimes, x.spec = z2)
      ∧ (s.shiftTimes z1 z2).exDateTimes.map kdtWall
          = s.exDateTimes.map (fun x => kdtWall (toTimeSpec z1 x))
      ∧ (s.startDateTime.spec = z1 →
          kdtWall (s.shiftTimes z1 z2).startDateTime = kdtWall s.startDateTime) := by
  refine ⟨?_, ?_, ?_, ?_, ?_, ?_, ?_⟩
  · simp [Recurrence.shiftTimes, h, setTimeSpec, toTimeSpec]
  · simp [Recurrence.shiftTimes, h, kdtWall, setTimeSpec, toTimeSpec]
  · intro x hx
    simp [Recurrence.shiftTimes, h, List.mem_map] at hx
    obtain ⟨a, -, rfl⟩ := hx
    rfl
  · simp only [Recurrence.shiftTimes, h, Bool.false_eq_true, if_false, List.map_map]
    exact listMapExt _ _ _ (fun a => by simp [kdtWall, setTimeSpec, toTimeSpec, Function.comp])
  · intro x hx
    simp [Recurrence.shiftTimes, h, List.mem_map] at hx
    obtain ⟨a, -, rfl⟩ := hx
    rfl
  · simp only [Recurrence.shiftTimes, h, Bool.false_eq_true, if_false, List.map_map]
    exact listMapExt _ _ _ (fun a => by simp [kdtWall, setTimeSpec, toTimeSpec, Function.comp])
  · intro hz
    simp [Recurrence.shiftTimes, h, kdtWall, setTimeSpec, toTimeSpec, hz]

/-- Witness for C8 (amended). -/
theorem shiftTimes_wall_clock_witness :
    (initRecurrence.shiftTimes 3600 7200).startDateTime.spec = 7200
      ∧ kdtWall (initRecurrence.shiftTimes 3600 7200).startDateTime
          = kdtWall (toTimeSpec 3600 initRecurrence.startDateTime)
      ∧ (∀ x ∈ (initRecurrence.shiftTimes 3600 7200).rDateTimes, x.spec = 7200)
      ∧ (initRecurrence.shiftTimes 3600 7200).rDateTimes.map kdtWall
          = initRecurrence.rDateTimes.map (fun x => kdtWall (toTimeSpec 3600 x))
      ∧ (∀ x ∈ (initRecurrence.shiftTimes 3600 7200).exDateTimes, x.spec = 7200)
      ∧ (initRecurrence.shiftTimes 3600 7200).exDateTimes.map kdtWall
          = initRecurrence.exDateTimes.map (fun x => kdtWall (toTimeSpec 3600 x))
      ∧ (initRecurrence.startDateTime.spec = 3600 →
          kdtWall (initRecurrence.shiftTimes 3600 7200).startDateTime
            = kdtWall initRecurrence.startDateTime) :=
  shiftTimes_wall_clock initRecurrence rfl 3600 7200

/-- C3 failing input: a recurrence whose only occurrence source is an
`rDateTime` a hundred days past the epoch. -/
def exThree : Recurrence := { initRecurrence with rDateTimes := [⟨8640000, 0, false⟩] }

/-- C3: `timesInInterval` over the first day returns the far-away
`rDateTime` even though it lies outside the closed interval, because the
source appends all `rDateTimes` (and promoted `rDates`) without a range
check — contradicting the claim (and the spec) that only instants within
the interval are returned. -/
theorem timesInInterval_ignores_range :
    exThree.timesInInterval ⟨0, 0, false⟩ ⟨86400, 0, false⟩ = [⟨8640000, 0, false⟩]
      ∧ kdtLt ⟨86400, 0, false⟩ ⟨8640000, 0, false⟩ = true := by
  refine ⟨rfl, by decide⟩

/-- Membership after sorted insertion: the element is the inserted value or
was already present. -/
theorem insertSortedI_mem {x a : Int} {l : List Int} (h : a ∈ insertSortedI x l) :
    a = x ∨ a ∈ l := by
  induction l with
  | nil => simpa [insertSortedI] using h
  | cons y ys ih =>
    simp only [insertSortedI] at h
    split_ifs at h with h1 h2
    · rcases List.mem_cons.1 h with rfl | h
      · exact Or.inl rfl
      · exact Or.inr h
    · exact Or.inr h
    · rcases List.mem_cons.1 h with rfl | h
      · exact Or.inr (List.mem_cons_self _ _)
      · rcases ih h with h' | h'
        · exact Or.inl h'
        · exact Or.inr (List.mem_cons_of_mem _ h')

/-- Sorted insertion preserves strict ascending order on `Int` lists. -/
theorem insertSortedI_pairwise {x : Int} {l : List Int} (h : l.Pairwise (· < ·)) :
    (insertSortedI x l).Pairwise (· < ·) := by
  induction l with
  | nil => simp [insertSortedI]
  | cons y ys ih =>
    rw [List.pairwise_cons] at h
    obtain ⟨hy, hys⟩ := h
    simp only [insertSortedI]
    split_ifs with h1 h2
    · refine List.pairwise_cons.2 ⟨?_, List.pairwise_cons.2 ⟨hy, hys⟩⟩
      intro a ha
      rcases List.mem_cons.1 ha with rfl | ha
      · exact h1
      · exact lt_trans h1 (hy a ha)
    · exact List.pairwise_cons.2 ⟨hy, hys⟩
    · refine List.pairwise_cons.2 ⟨?_, ih hys⟩
      intro a ha
      rcases insertSortedI_mem ha with rfl | ha
      · omega
      · exact hy a ha

/-- Membership after sorted insertion into a `KDateTime` list. -/
theorem insertSortedK_mem {x a : KDT} {l : List KDT} (h : a ∈ insertSortedK x l) :
    a = x ∨ a ∈ l := by
  induction l with
  | nil => simpa [insertSortedK] using h
  | cons y ys ih =>
    simp only [insertSortedK] at h
    split_ifs at h with h1 h2
    · rcases List.mem_cons.1 h with rfl | h
      · exact Or.inl rfl
      · exact Or.inr h
    · exact Or.inr h
    · rcases List.mem_cons.1 h with rfl | h
      · exact Or.inr (List.mem_cons_self _ _)
      · rcases ih h with h' | h'
        · exact Or.inl h'
        · exact Or.inr (List.mem_cons_of_mem _ h')

/-- Sorted insertion preserves strict ascending order by instant on
`KDateTime` lists. -/
theorem insertSortedK_pairwise {x : KDT} {l : List KDT}
    (h : l.Pairwise (fun p q => p.abs < q.abs)) :
    (insertSortedK x l).Pairwise (fun p q => p.abs < q.abs) := by
  induction l with
  | nil => simp [insertSortedK]
  | cons y ys ih =>
    rw [List.pairwise_cons] at h
    obtain ⟨hy, hys⟩ := h
    simp only [insertSortedK]
    split_ifs with h1 h2
    · refine List.pairwise_cons.2 ⟨?_, List.pairwise_cons.2 ⟨hy, hys⟩⟩
      intro a ha
      rcases List.mem_cons.1 ha with rfl | ha
      · exact h1
      · exact lt_trans h1 (hy a ha)
    · exact List.pairwise_cons.2 ⟨hy, hys⟩
    · refine List.pairwise_cons.2 ⟨?_, ih hys⟩
      intro a ha
      rcases insertSortedK_mem ha with rfl | ha
      · omega
      · exact hy a ha

/-- `sortUnique` yields a strictly ascending `Int` list. -/
theorem sortUniqueI_pairwise (l : List Int) : (sortUniqueI l).Pairwise (· < ·) := by
  induction l with
  | nil => simp [sortUniqueI]
  | cons y ys ih => exact insertSortedI_pairwise ih

/-- `sortUnique` yields a strictly ascending `KDateTime` list. -/
theorem sortUniqueK_pairwise (l : List KDT) :
    (sortUniqueK l).Pairwise (fun p q => p.abs < q.abs) := by
  induction l with
  | nil => simp [sortUniqueK]
  | cons y ys ih => exact insertSortedK_pairwise ih

/-- The uniform instant shift performed by `shiftTimes` preserves strict
ascending order by instant. -/
theorem shiftMap_pairwise (z1 z2 : Spec) {l : List KDT}
    (h : l.Pairwise (fun p q => p.abs < q.abs)) :
    (l.map (fun x => setTimeSpec z2 (toTimeSpec z1 x))).Pairwise (fun p q => p.abs < q.abs) := by
  rw [List.pairwise_map]
  refine h.imp ?_
  intro a b hab
  simp only [setTimeSpec, toTimeSpec]
  omega

/-- Every public operation preserves the sorted-unique invariant of the
four date/instant lists. -/
theorem applyOp_preserves_listsSorted (op : Op) (s : Recurrence) (h : s.listsSorted) :
    (applyOp op s).listsSorted := by
  obtain ⟨h1, h2, h3, h4⟩ := h
  cases op with
  | setRDateTimes l =>
    simp only [applyOp, Recurrence.setRDateTimes, Recurrence.updated]
    split_ifs
    · exact ⟨h1, h2, h3, h4⟩
    · exact ⟨h1, h2, sortUniqueK_pairwise l, h4⟩
  | addRDateTime t =>
    simp only [applyOp, Recurrence.addRDateTime, Recurrence.updated]
    split_ifs
    · exact ⟨h1, h2, h3, h4⟩
    · exact ⟨h1, h2, insertSortedK_pairwise h3, h4⟩
  | setRDates l =>
    simp only [applyOp, Recurrence.setRDates, Recurrence.updated]
    split_ifs
    · exact ⟨h1, h2, h3, h4⟩
    · exact ⟨sortUniqueI_pairwise l, h2, h3, h4⟩
  | addRDate dd =>
    simp only [applyOp, Recurrence.addRDate, Recurrence.updated]
    split_ifs
    · exact ⟨h1, h2, h3, h4⟩
    · exact ⟨insertSortedI_pairwise h1, h2, h3, h4⟩
  | setExDateTimes l =>
    simp only [applyOp, Recurrence.setExDateTimes]
    split_ifs
    · exact ⟨h1, h2, h3, h4⟩
    · exact ⟨h1, h2, h3, sortUniqueK_pairwise l⟩
  | addExDateTime t =>
    simp only [applyOp, Recurrence.addExDateTime, Recurrence.updated]
    split_ifs
    · exact ⟨h1, h2, h3, h4⟩
    · exact ⟨h1, h2, h3, insertSortedK_pairwise h4⟩
  | setExDates l =>
    simp only [applyOp, Recurrence.setExDates, Recurrence.updated]
    split_ifs
    · exact ⟨h1, h2, h3, h4⟩
    · exact ⟨h1, sortUniqueI_pairwise l, h3, h4⟩
  | addExDate dd =>
    simp only [applyOp, Recurrence.addExDate, Recurrence.updated]
    split_ifs
    · exact ⟨h1, h2, h3, h4⟩
    · exact ⟨h1, insertSortedI_pairwise h2, h3, h4⟩
  | clearAll =>
    simp only [applyOp, Recurrence.clear, Recurrence.updated]
    split_ifs
    · exact ⟨h1, h2, h3, h4⟩
    · exact ⟨List.Pairwise.nil, List.Pairwise.nil, List.Pairwise.nil, List.Pairwise.nil⟩
  | unsetRecurs =>
    simp only [applyOp, Recurrence.unsetRecurs, Recurrence.updated]
    split_ifs
    · exact ⟨h1, h2, h3, h4⟩
    · exact ⟨h1, h2, h3, h4⟩
  | setStartDateTime t =>
    simp only [applyOp, Recurrence.setStartDateTime, Recurrence.setFloats, Recurrence.updated]
    split_ifs <;> exact ⟨h1, h2, h3, h4⟩
  | setFloats b =>
    simp only [applyOp, Recurrence.setFloats, Recurrence.updated]
    split_ifs <;> exact ⟨h1, h2, h3, h4⟩
  | shiftTimes z1 z2 =>
    simp only [applyOp, Recurrence.shiftTimes]
    split_ifs
    · exact ⟨h1, h2, h3, h4⟩
    · exact ⟨h1, h2, shiftMap_pairwise z1 z2 h3, shiftMap_pairwise z1 z2 h4⟩
  | addRRule r =>
    simp only [applyOp, Recurrence.addRRule, Recurrence.updated]
    split_ifs <;> exact ⟨h1, h2, h3, h4⟩
  | removeRRule rid =>
    simp only [applyOp, Recurrence.removeRRule, Recurrence.updated]
    split_ifs <;> exact ⟨h1, h2, h3, h4⟩
  | addExRule r =>
    simp only [applyOp, Recurrence.addExRule, Recurrence.updated]
    split_ifs <;> exact ⟨h1, h2, h3, h4⟩
  | removeExRule rid =>
    simp only [applyOp, Recurrence.removeExRule, Recurrence.updated]
    split_ifs <;> exact ⟨h1, h2, h3, h4⟩
  | setEndDateTime t =>
    simp only [applyOp, Recurrence.setEndDateTime, Recurrence.ensureDefaultRRule,
      Recurrence.addRRule, updateFirstRule, Recurrence.updated]
    rcases hr : s.rRules with - | ⟨r0, rs⟩ <;> split_ifs <;> exact ⟨h1, h2, h3, h4⟩
  | setDuration n =>
    simp only [applyOp, Recurrence.setDuration, Recurrence.ensureDefaultRRule,
      Recurrence.addRRule, updateFirstRule, Recurrence.updated]
    rcases hr : s.rRules with - | ⟨r0, rs⟩ <;> split_ifs <;> exact ⟨h1, h2, h3, h4⟩
  | setFrequency n =>
    simp only [applyOp, Recurrence.setFrequency, Recurrence.ensureDefaultRRule,
      Recurrence.addRRule, updateFirstRule, Recurrence.updated]
    rcases hr : s.rRules with - | ⟨r0, rs⟩ <;> split_ifs <;> exact ⟨h1, h2, h3, h4⟩
  | setRecurReadOnly b =>
    exact ⟨h1, h2, h3, h4⟩

/-- Folding public operations from a state with sorted lists keeps the
lists sorted. -/
theorem foldOps_listsSorted (ops : List Op) :
    ∀ s : Recurrence, s.listsSorted →
      (ops.foldl (fun s op => applyOp op s) s).listsSorted := by
  induction ops with
  | nil => intro s hs; exact hs
  | cons op rest ih =>
    intro s hs
    exact ih (applyOp op s) (applyOp_preserves_listsSorted op s hs)

/-- C9: the four lists `rDates`, `rDateTimes`, `exDates`, `exDateTimes` are
sorted ascending and duplicate-free after construction and after every
sequence of public operations: the invariant holds in every reachable
state. -/
theorem reachable_lists_sorted (ops : List Op) : (runOps ops).listsSorted :=
  foldOps_listsSorted ops initRecurrence
    ⟨List.Pairwise.nil, List.Pairwise.nil, List.Pairwise.nil, List.Pairwise.nil⟩

/-- Removing values one by one from the empty list leaves it empty. -/
theorem foldl_removeSortedI_nil (l : List Int) : l.foldl removeSortedI [] = [] := by
  induction l with
  | nil => rfl
  | cons x xs ih => simpa [removeSortedI] using ih

/-- Sorted insertion never yields the empty list. -/
theorem insertSortedI_ne_nil (x : Int) (l : List Int) : insertSortedI x l ≠ [] := by
  cases l with
  | nil => simp [insertSortedI]
  | cons y ys =>
    simp only [insertSortedI]
    split_ifs <;> simp

/-- Sorting and deduplicating is empty exactly on the empty list. -/
theorem sortUniqueI_eq_nil {l : List Int} : sortUniqueI l = [] ↔ l = [] := by
  cases l with
  | nil => simp [sortUniqueI]
  | cons y ys =>
    constructor
    · intro h
      exact absurd h (insertSortedI_ne_nil y (sortUniqueI ys))
    · intro h
      cases h

/-- The time scan over a date-time list is nonempty exactly when some entry
falls on the date (starting with the found flag clear). -/
theorem scanTimes_ne_nil {z : Spec} {d : Int} {l : List KDT} :
    scanTimes z d l false ≠ [] ↔ ∃ x ∈ l, kdtDate (toTimeSpec z x) = d := by
  induction l with
  | nil => simp [scanTimes]
  | cons y ys ih =>
    by_cases hy : kdtDate (toTimeSpec z y) = d
    · simp [scanTimes, hy]
    · simp only [scanTimes, hy, if_false]
      simpa [hy] using ih

/-- The per-rule time accumulation is empty exactly when every rule
contributes no time. -/
theorem rulesTimesOn_eq_nil {rules : List RecurrenceRule} {d : Int} {z : Spec} :
    rulesTimesOn rules d z = [] ↔ ∀ r ∈ rules, r.recurTimesOnF d z = [] := by
  induction rules with
  | nil => simp [rulesTimesOn]
  | cons r rs ih =>
    simp only [rulesTimesOn, List.map_cons, List.flatten_cons, List.append_eq_nil,
      List.mem_cons] at *
    constructor
    · rintro ⟨hr, hrs⟩ a (rfl | ha)
      · exact hr
      · exact ih.1 hrs a ha
    · intro h
      exact ⟨h r (Or.inl rfl), ih.2 (fun a ha => h a (Or.inr ha))⟩

/-- C2 (amended): `recursOn(d, z)` agrees with non-emptiness of
`recurTimesOn(d, z)` provided the short-cut paths that have no counterpart
in the time-list computation do not fire: the end of day `d` in `z` is not
before the anchor, `d` is not an `rDate` (an `rDate` makes `recursOn` true
while contributing no time), the anchor's date in its own spec names `d`
exactly when its date in `z` does, and each rule's `recursOn` agrees with
non-emptiness of its `recurTimesOn` (the rule coherence the `RecurrenceRule`
spec guarantees). -/
theorem recursOn_iff_recurTimesOn (s : Recurrence) (qd : Int) (z : Spec)
    (hstart : kdtLt (mkKDT qd 86399 z) s.startDateTime = false)
    (hrd : containsSortedI s.rDates qd = false)
    (hsd : (kdtDate (toTimeSpec z s.startDateTime) = qd) ↔ (kdtDate s.startDateTime = qd))
    (hrr : ∀ r ∈ s.rRules, (r.recursOnF qd z = true ↔ r.recurTimesOnF qd z ≠ []))
    (hxr : ∀ r ∈ s.exRules, (r.recursOnF qd z = true ↔ r.recurTimesOnF qd z ≠ [])) :
    (s.recursOn qd z = true ↔ s.recurTimesOn qd z ≠ []) := by
  by_cases hex : containsSortedI s.exDates qd = true
  · simp [Recurrence.recursOn, Recurrence.recurTimesOn, hstart, hex]
  rw [Bool.not_eq_true] at hex
  by_cases hflx : (s.floating && s.exRules.any fun r => r.recursOnF qd z) = true
  · simp [Recurrence.recursOn, Recurrence.recurTimesOn, hstart, hex, hflx]
  rw [Bool.not_eq_true] at hflx
  have hrt : s.recurTimesOn qd z
      = (sortUniqueI (s.exTimesBase qd z)).foldl removeSortedI
          (sortUniqueI (s.incTimesBase qd z)) := by
    simp [Recurrence.recurTimesOn, hex, hflx]
  by_cases hrec : ((kdtDate s.startDateTime == qd)
      || s.rDateTimes.any (fun rdt => kdtDate (toTimeSpec z rdt) == qd)
      || s.rRules.any (fun r => r.recursOnF qd z)) = true
  case neg =>
    rw [Bool.not_eq_true] at hrec
    have hro : s.recursOn qd z = false := by
      simp only [Recurrence.recursOn, hstart, hex, hflx, hrd, hrec]
      simp
    have hrec' := hrec
    simp only [Bool.or_eq_false_iff, beq_eq_false_iff_ne, ne_eq,
      List.any_eq_false] at hrec'
    obtain ⟨⟨hA, hB⟩, hC⟩ := hrec'
    have hinc : s.incTimesBase qd z = [] := by
      have e1 : (if kdtDate (toTimeSpec z s.startDateTime) = qd
          then [kdtTime (toTimeSpec z s.startDateTime)] else []) = ([] : List Int) := by
        have hne : ¬ kdtDate (toTimeSpec z s.startDateTime) = qd := fun hh => hA (hsd.1 hh)
        simp [hne]
      have e2 : scanTimes z qd s.rDateTimes false = [] := by
        by_contra hne
        obtain ⟨x, hx, hxd⟩ := scanTimes_ne_nil.1 hne
        have hbx := hB x hx
        simp [hxd] at hbx
      have e3 : rulesTimesOn s.rRules qd z = [] := by
        rw [rulesTimesOn_eq_nil]
        intro r hrm
        by_contra hne
        exact (hC r hrm) ((hrr r hrm).2 hne)
      simp [Recurrence.incTimesBase, e1, e2, e3]
    rw [hro, hrt, hinc]
    have h0 : sortUniqueI ([] : List Int) = [] := rfl
    rw [h0]
    simp [foldl_removeSortedI_nil]
  case pos =>
    by_cases hexon : (s.exDateTimes.any (fun edt => kdtDate (toTimeSpec z edt) == qd)
        || (!s.floating && s.exRules.any (fun r => r.recursOnF qd z))) = true
    · have hro : s.recursOn qd z = !(s.recurTimesOn qd z).isEmpty := by
        simp only [Recurrence.recursOn, hstart, hex, hflx, hrd, hrec, hexon]
        simp
      rw [hro]
      cases hh : s.recurTimesOn qd z <;> simp [hh]
    · rw [Bool.not_eq_true] at hexon
      have hro : s.recursOn qd z = true := by
        simp only [Recurrence.recursOn, hstart, hex, hflx, hrd, hrec, hexon]
        simp
      have hexon' := hexon
      simp only [Bool.or_eq_false_iff, List.any_eq_false, Bool.and_eq_false_iff,
        Bool.not_eq_false', beq_eq_false_iff_ne, ne_eq] at hexon'
      obtain ⟨hD, hE⟩ := hexon'
      have e1 : scanTimes z qd s.exDateTimes false = [] := by
        by_contra hne
        obtain ⟨x, hx, hxd⟩ := scanTimes_ne_nil.1 hne
        have hdx := hD x hx
        simp [hxd] at hdx
      have e2 : (if !s.floating then rulesTimesOn s.exRules qd z else []) = ([] : List Int) := by
        rcases hE with hfl | hany
        · simp [hfl]
        · have hz : rulesTimesOn s.exRules qd z = [] := by
            rw [rulesTimesOn_eq_nil]
            intro r hrm
            by_contra hne
            exact (hany r hrm) ((hxr r hrm).2 hne)
          simp [hz]
      have hext : s.exTimesBase qd z = [] := by
        simp only [Recurrence.exTimesBase, e1, e2, List.nil_append]
      have hinc : s.incTimesBase qd z ≠ [] := by
        have hrec' := hrec
        simp only [Bool.or_eq_true, beq_iff_eq, List.any_eq_true] at hrec'
        intro hnil
        simp only [Recurrence.incTimesBase, List.append_eq_nil] at hnil
        obtain ⟨⟨n1, n2⟩, n3⟩ := hnil
        rcases hrec' with (hA | ⟨x, hx, hxd⟩) | ⟨r, hrm, hrg⟩
        · rw [if_pos (hsd.2 hA)] at n1
          simp at n1
        · exact scanTimes_ne_nil.2 ⟨x, hx, hxd⟩ n2
        · exact ((hrr r hrm).1 hrg) (rulesTimesOn_eq_nil.1 n3 r hrm)
      rw [hro, hrt, hext]
      have h0 : sortUniqueI ([] : List Int) = [] := rfl
      rw [h0]
      simp only [List.foldl_nil]
      constructor
      · exact fun _ hnil => hinc (sortUniqueI_eq_nil.1 hnil)
      · intro _
        trivial

/-- C2 counterexample fixture: a recurrence whose only inclusion source is
the explicit all-day date 5 days past the epoch. -/
def exTwo : Recurrence := { initRecurrence with rDates := [5] }

/-- C2 counterexample theorem: on the `rDate` day, `recursOn` returns true
through its `rDates` short-cut while `recurTimesOn` is empty, refuting the
claimed equivalence as universally stated. -/
theorem recursOn_true_but_no_times :
    exTwo.recursOn 5 0 = true ∧ exTwo.recurTimesOn 5 0 = [] := by
  constructor
  · decide
  · decide

/-- Witness for C2 (amended). -/
theorem recursOn_iff_recurTimesOn_witness :
    initRecurrence.recursOn 0 0 = true ↔ initRecurrence.recurTimesOn 0 0 ≠ [] :=
  recursOn_iff_recurTimesOn initRecurrence 0 0 (by decide) (by decide) (by decide)
    (by simp [initRecurrence]) (by simp [initRecurrence])

/-- The leftmost-minimum of a candidate list is one of its elements. -/
theorem kdtMin_mem (x : KDT) (l : List KDT) : kdtMin x l ∈ x :: l := by
  induction l generalizing x with
  | nil => simp [kdtMin]
  | cons b bs ih =>
    have step : kdtMin x (b :: bs) = kdtMin (if b.abs < x.abs then b else x) bs := rfl
    rw [step]
    have h := ih (if b.abs < x.abs then b else x)
    rcases List.mem_cons.1 h with he | hm
    · rw [he]
      split_ifs <;> simp
    · simp [List.mem_cons.2 (Or.inr (List.mem_cons_of_mem b hm))]

/-- The leftmost-maximum of a candidate list is one of its elements. -/
theorem kdtMax_mem (x : KDT) (l : List KDT) : kdtMax x l ∈ x :: l := by
  induction l generalizing x with
  | nil => simp [kdtMax]
  | cons b bs ih =>
    have step : kdtMax x (b :: bs) = kdtMax (if x.abs < b.abs then b else x) bs := rfl
    rw [step]
    have h := ih (if x.abs < b.abs then b else x)
    rcases List.mem_cons.1 h with he | hm
    · rw [he]
      split_ifs <;> simp
    · simp [List.mem_cons.2 (Or.inr (List.mem_cons_of_mem b hm))]

/-- Every candidate one forward round collects lies strictly after the
current point, provided each rule's next date does (the `RecurrenceRule`
spec: the smallest occurrence strictly greater than the argument). -/
theorem nextCandidates_gt (s : Recurrence) (cur : KDT)
    (hR : ∀ r ∈ s.rRules, ∀ y, r.getNextDateF cur = some y → cur.abs < y.abs) :
    ∀ y ∈ s.nextCandidates cur, cur.abs < y.abs := by
  intro y hy
  simp only [Recurrence.nextCandidates, List.mem_append] at hy
  rcases hy with ((h1 | h2) | h3) | h4
  · rcases hlt : kdtLt cur s.startDateTime with - | -
    · rw [hlt] at h1
      simp at h1
    · rw [hlt] at h1
      simp at h1
      rw [h1]
      simpa [kdtLt] using hlt
  · rcases hf : findGT s.rDateTimes cur with - | x
    · rw [hf] at h2
      simp at h2
    · rw [hf] at h2
      simp at h2
      subst h2
      have := List.find?_some hf
      simpa using this
  · rcases hf : s.rDates.find? (fun rd => kdtLt cur (kdtSetDate s.startDateTime rd)) with - | rd
    · rw [hf] at h3
      simp at h3
    · rw [hf] at h3
      simp at h3
      subst h3
      have := List.find?_some hf
      simpa [kdtLt] using this
  · obtain ⟨r, hrm, hrg⟩ := List.mem_filterMap.1 h4
    exact hR r hrm y hrg

/-- Every candidate one backward round collects lies strictly before the
current point, provided each rule's previous date does. -/
theorem prevCandidates_lt (s : Recurrence) (cur : KDT)
    (hP : ∀ r ∈ s.rRules, ∀ y, r.getPreviousDateF cur = some y → y.abs < cur.abs) :
    ∀ y ∈ s.prevCandidates cur, y.abs < cur.abs := by
  intro y hy
  simp only [Recurrence.prevCandidates, List.mem_append] at hy
  rcases hy with ((h1 | h2) | h3) | h4
  · rcases hlt : kdtLt s.startDateTime cur with - | -
    · rw [hlt] at h1
      simp at h1
    · rw [hlt] at h1
      simp at h1
      rw [h1]
      simpa [kdtLt] using hlt
  · rcases hf : findLT s.rDateTimes cur with - | x
    · rw [hf] at h2
      simp at h2
    · rw [hf] at h2
      simp only [List.mem_singleton] at h2
      have hx : x ∈ s.rDateTimes.filter (fun w => decide (w.abs < cur.abs)) := by
        unfold findLT at hf
        exact List.mem_of_getLast?_eq_some hf
      have hlt := List.of_mem_filter hx
      rw [h2]
      simpa using hlt
  · rcases hf : s.rDates.reverse.find? (fun rd => kdtLt (kdtSetDate s.startDateTime rd) cur) with - | rd
    · rw [hf] at h3
      simp at h3
    · rw [hf] at h3
      simp at h3
      subst h3
      have := List.find?_some hf
      simpa [kdtLt] using this
  · obtain ⟨r, hrm, hrg⟩ := List.mem_filterMap.1 h4
    exact hP r hrm y hrg

/-- A successful forward search returns an admissible instant strictly
after the search point. -/
theorem nextGo_some (s : Recurrence)
    (hR : ∀ r ∈ s.rRules, ∀ x y, r.getNextDateF x = some y → x.abs < y.abs) :
    ∀ (fuel : Nat) (cur v : KDT), s.nextGo fuel cur = some v →
      cur.abs < v.abs ∧ s.allowedAt v = true := by
  intro fuel
  induction fuel with
  | zero =>
    intro cur v h
    simp [Recurrence.nextGo] at h
  | succ n ih =>
    intro cur v h
    rcases hc : s.nextCandidates cur with - | ⟨c, cs⟩
    case nil => simp [Recurrence.nextGo, hc] at h
    simp only [Recurrence.nextGo, hc] at h
    have hmem : kdtMin c cs ∈ s.nextCandidates cur := by
      rw [hc]
      exact kdtMin_mem c cs
    have hgt : cur.abs < (kdtMin c cs).abs :=
      nextCandidates_gt s cur (fun r hrm y hy => hR r hrm cur y hy) (kdtMin c cs) hmem
    by_cases ha : s.allowedAt (kdtMin c cs) = true
    · rw [if_pos ha] at h
      obtain rfl := Option.some.inj h
      exact ⟨hgt, ha⟩
    · rw [if_neg ha] at h
      obtain ⟨h1, h2⟩ := ih (kdtMin c cs) v h
      exact ⟨lt_trans hgt h1, h2⟩

/-- A successful backward search returns an admissible instant strictly
before the search point. -/
theorem prevGo_some (s : Recurrence)
    (hP : ∀ r ∈ s.rRules, ∀ x y, r.getPreviousDateF x = some y → y.abs < x.abs) :
    ∀ (fuel : Nat) (cur v : KDT), s.prevGo fuel cur = some v →
      v.abs < cur.abs ∧ s.allowedAt v = true := by
  intro fuel
  induction fuel with
  | zero =>
    intro cur v h
    simp [Recurrence.prevGo] at h
  | succ n ih =>
    intro cur v h
    rcases hc : s.prevCandidates cur with - | ⟨c, cs⟩
    case nil => simp [Recurrence.prevGo, hc] at h
    simp only [Recurrence.prevGo, hc] at h
    have hmem : kdtMax c cs ∈ s.prevCandidates cur := by
      rw [hc]
      exact kdtMax_mem c cs
    have hlt : (kdtMax c cs).abs < cur.abs :=
      prevCandidates_lt s cur (fun r hrm y hy => hP r hrm cur y hy) (kdtMax c cs) hmem
    by_cases ha : s.allowedAt (kdtMax c cs) = true
    · rw [if_pos ha] at h
      obtain rfl := Option.some.inj h
      exact ⟨hlt, ha⟩
    · rw [if_neg ha] at h
      obtain ⟨h1, h2⟩ := ih (kdtMax c cs) v h
      exact ⟨lt_trans h1 hlt, h2⟩

/-- The forward search returns none exactly when it fails: at some round no
candidate strictly after the current point exists, or every round's minimal
candidate is excluded until the budget runs out. -/
theorem nextGo_none_iff (s : Recurrence) :
    ∀ (fuel : Nat) (cur : KDT), s.nextGo fuel cur = none ↔ s.nextSearchFails fuel cur := by
  intro fuel
  induction fuel with
  | zero =>
    intro cur
    simp [Recurrence.nextGo, Recurrence.nextSearchFails]
  | succ n ih =>
    intro cur
    rcases hc : s.nextCandidates cur with - | ⟨c, cs⟩
    · simp [Recurrence.nextGo, Recurrence.nextSearchFails, hc]
    · simp only [Recurrence.nextGo, Recurrence.nextSearchFails, hc]
      by_cases ha : s.allowedAt (kdtMin c cs) = true
      · simp [ha]
      · rw [Bool.not_eq_true] at ha
        simp [ha, ih]

/-- The backward search returns none exactly when it fails. -/
theorem prevGo_none_iff (s : Recurrence) :
    ∀ (fuel : Nat) (cur : KDT), s.prevGo fuel cur = none ↔ s.prevSearchFails fuel cur := by
  intro fuel
  induction fuel with
  | zero =>
    intro cur
    simp [Recurrence.prevGo, Recurrence.prevSearchFails]
  | succ n ih =>
    intro cur
    rcases hc : s.prevCandidates cur with - | ⟨c, cs⟩
    · simp [Recurrence.prevGo, Recurrence.prevSearchFails, hc]
    · simp only [Recurrence.prevGo, Recurrence.prevSearchFails, hc]
      by_cases ha : s.allowedAt (kdtMax c cs) = true
      · simp [ha]
      · rw [Bool.not_eq_true] at ha
        simp [ha, ih]

/-- C4: `getNextDateTime(after)` returns none exactly when the 1000-round
candidate-rejection search fails (no candidate strictly after the current
point at some round, or the budget exhausted); any instant it returns is
strictly greater than `after` and is excluded by no `exDate`, `exDateTime`
or exclusion rule; `getPreviousDateTime` satisfies the mirror property.
The rules' next/previous dates are assumed strictly beyond their argument,
as the `RecurrenceRule` specification states. -/
theorem getNextPrev_properties (s : Recurrence) (afterDT beforeDT : KDT)
    (hR : ∀ r ∈ s.rRules, ∀ x y, r.getNextDateF x = some y → x.abs < y.abs)
    (hP : ∀ r ∈ s.rRules, ∀ x y, r.getPreviousDateF x = some y → y.abs < x.abs) :
    (∀ v, s.getNextDateTime afterDT = some v → afterDT.abs < v.abs ∧ s.allowedAt v = true)
      ∧ (s.getNextDateTime afterDT = none ↔ s.nextSearchFails 1000 afterDT)
      ∧ (∀ v, s.getPreviousDateTime beforeDT = some v →
            v.abs < beforeDT.abs ∧ s.allowedAt v = true)
      ∧ (s.getPreviousDateTime beforeDT = none ↔ s.prevSearchFails 1000 beforeDT) := by
  refine ⟨?_, ?_, ?_, ?_⟩
  · intro v hv
    exact nextGo_some s hR 1000 afterDT v hv
  · exact nextGo_none_iff s 1000 afterDT
  · intro v hv
    exact prevGo_some s hP 1000 beforeDT v hv
  · exact prevGo_none_iff s 1000 beforeDT

/-- Witness for C4. -/
theorem getNextPrev_properties_witness :
    (∀ v, initRecurrence.getNextDateTime ⟨0, 0, false⟩ = some v →
        (⟨0, 0, false⟩ : KDT).abs < v.abs ∧ initRecurrence.allowedAt v = true)
      ∧ (initRecurrence.getNextDateTime ⟨0, 0, false⟩ = none
          ↔ initRecurrence.nextSearchFails 1000 ⟨0, 0, false⟩)
      ∧ (∀ v, initRecurrence.getPreviousDateTime ⟨0, 0, false⟩ = some v →
            v.abs < (⟨0, 0, false⟩ : KDT).abs ∧ initRecurrence.allowedAt v = true)
      ∧ (initRecurrence.getPreviousDateTime ⟨0, 0, false⟩ = none
          ↔ initRecurrence.prevSearchFails 1000 ⟨0, 0, false⟩) :=
  getNextPrev_properties initRecurrence ⟨0, 0, false⟩ ⟨0, 0, false⟩
    (by simp [initRecurrence]) (by simp [initRecurrence])
